import Mathlib

/-!
Shallow embedding of the GoStream broadcast engine (script-php/GoStream).

Byte sequences are modelled as `List Nat` (each entry one byte value),
machine integers as `Nat`/`Int` with explicit truncation where Go
truncates, and fallible Go code as `Option`/sum results.  Each definition
is translated from the Go source file named in its doc comment.
-/

namespace GoStream

/-! ### ICY metadata block (`src/routes/fm.go`, `BuildIcecastMetadata`) -/

/-- Byte contents of a Lean string literal, used to embed Go string
literals as byte lists (all literals used here are ASCII, where
codepoint = byte). -/
def strBytes (s : String) : List Nat :=
  s.data.map Char.toNat

/-- The ICY payload `"StreamTitle='" + filename + "';StreamUrl='" + url + "';"`
built by `fmt.Sprintf` in `BuildIcecastMetadata` (fm.go line 19). -/
def icyPayload (filename url : List Nat) : List Nat :=
  strBytes "StreamTitle='" ++ filename ++ strBytes "';StreamUrl='" ++ url ++ strBytes "';"

/-- Go's builtin `copy(dst[off:], src)`: writes `min (len dst - off) (len src)`
bytes of `src` into `dst` starting at index `off`, leaving the rest of
`dst` unchanged. -/
def goCopy (dst : List Nat) (off : Nat) (src : List Nat) : List Nat :=
  dst.take off ++ src.take (min (dst.length - off) src.length)
    ++ dst.drop (off + min (dst.length - off) src.length)

/-- Embedding of `BuildIcecastMetadata` (fm.go lines 17-37).  The Go code
computes `blockCount := (len+15)/16`, allocates `1 + blockCount*16` zero
bytes, stores `byte(blockCount)` (a mod-256 truncation) at index 0 and
copies the payload in starting at index 1. -/
def BuildIcecastMetadata (filename url : List Nat) : List Nat :=
  let metadataStr := icyPayload filename url
  let metadataLen := metadataStr.length
  let blockCount := (metadataLen + 15) / 16
  let totalLen := 1 + blockCount * 16
  let metadataBlock := (List.replicate totalLen 0).set 0 (blockCount % 256)
  goCopy metadataBlock 1 metadataStr

/-! ### MP3 frames and the shared buffer store (`src/modules/reader.go`) -/

/-- The fields of an `mp3lib` frame used by the reader: its raw bytes,
`SampleCount` and `SamplingRate`. -/
structure Frame where
  raw : List Nat
  sampleCount : Nat
  samplingRate : Nat
deriving DecidableEq, Repr

/-- The per-frame pacing increment `1000 * frame.SampleCount / frame.SamplingRate`
(reader.go lines 367 and 405); Go `/` on ints is truncating division. -/
def frameMs (f : Frame) : Nat :=
  1000 * f.sampleCount / f.samplingRate

/-- `MusicReader.InitialFrame` (reader.go line 50). -/
def InitialFrame : Nat := 500

/-- `MusicReader.UnitFrame` (reader.go line 51). -/
def UnitFrame : Nat := 50

/-- `IMusicReaderStoreData` (reader.go lines 62-67): the snapshot the
producer publishes to the shared store. -/
structure StoreData where
  InitialBuffer : List Nat
  UnitBuffer : List Nat
  Timeout : Nat
  Order : Nat
deriving DecidableEq, Repr

/-- The body of the `for i` loop of `SetInitialBuffer` (reader.go lines
349-369): `slots` are the successive results of `mp3lib.NextFrame` (the
Go loop runs `InitialFrame` times, so `slots` has length `InitialFrame`;
`none` models a nil frame, which is skipped but still consumes a loop
index).  The first component accumulates `initialBuffer`, the second
`unitBuffer` (frames with index `i ≥ InitialFrame - UnitFrame`), the
third `timeout`.  `i` is the index of the first slot. -/
def readInitialAux : Nat → List (Option Frame) → List Nat × List Nat × Nat
  | _, [] => ([], [], 0)
  | i, none :: rest => readInitialAux (i + 1) rest
  | i, some f :: rest =>
      let r := readInitialAux (i + 1) rest
      if InitialFrame - UnitFrame ≤ i then
        (f.raw ++ r.1, f.raw ++ r.2.1, frameMs f + r.2.2)
      else
        (f.raw ++ r.1, r.2.1, r.2.2)

/-- Embedding of `SetInitialBuffer` (reader.go lines 341-385): builds the
initial snapshot from the frame-read results and publishes it with
`Order = 1`. -/
def SetInitialBuffer (slots : List (Option Frame)) : StoreData :=
  let r := readInitialAux 0 slots
  { InitialBuffer := r.1, UnitBuffer := r.2.1, Timeout := r.2.2, Order := 1 }

/-- The frame-reading loop of `SetUnitBuffer` (reader.go lines 398-406):
accumulates `unitBuffer` and `timeout` over one pass of `UnitFrame` calls
to `mp3lib.NextFrame` (`slots` has length `UnitFrame`; `none` models a
nil frame). -/
def readUnitAux : List (Option Frame) → List Nat × Nat
  | [] => ([], 0)
  | none :: rest => readUnitAux rest
  | some f :: rest =>
      let r := readUnitAux rest
      (f.raw ++ r.1, frameMs f + r.2)

/-- Outcome of one `SetUnitBuffer` pass: a published snapshot, no publish
(the empty-read retry path of reader.go lines 408-427, which exits
without touching the store), or the runtime panic of the slice expression
`store.InitialBuffer[len(unitBuffer):]` (reader.go line 433), which in Go
aborts the producer goroutine before any publish. -/
inductive UnitResult where
  | published (s : StoreData)
  | noPublish
  | panicked
deriving DecidableEq, Repr

/-- Embedding of `SetUnitBuffer` (reader.go lines 387-442) for one read
pass `slots`: if no bytes were read nothing is published (the Go loop
then retries from the next file, each retry being a further pass);
otherwise the rolling update drops the first `len unitBuffer` bytes of
`InitialBuffer` and appends `unitBuffer` — in Go the slice expression
panics when `len unitBuffer > len InitialBuffer`. -/
def SetUnitBuffer (store : StoreData) (slots : List (Option Frame)) : UnitResult :=
  let r := readUnitAux slots
  if r.1 = [] then .noPublish
  else if r.1.length ≤ store.InitialBuffer.length then
    .published
      { InitialBuffer := store.InitialBuffer.drop r.1.length ++ r.1,
        UnitBuffer := r.1,
        Timeout := r.2,
        Order := store.Order + 1 }
  else .panicked

/-- Timeout of a published snapshot, if one was published. -/
def publishedTimeout : UnitResult → Option Nat
  | .published s => some s.Timeout
  | _ => none

/-! ### The client streaming loop (`src/routes/fm.go`, `GetFMStream`) -/

/-- One item written to the client socket in the `wantMetadata` branch:
an audio chunk of `k` bytes, or one ICY metadata block. -/
inductive StreamItem where
  | audio (k : Nat)
  | meta
deriving DecidableEq, Repr

/-- The effective metadata interval of a session (fm.go lines 99-102):
`modules.Config.MetaInterval`, replaced by the default 8192 when the
configured value is not positive.  The result is always positive. -/
def effectiveMetaInterval (c : Int) : Nat :=
  if c ≤ 0 then 8192 else c.toNat

/-- The inner `for offset < bufLen` loop of `GetFMStream` (fm.go lines
145-182) on one target buffer.  Only the buffer LENGTH `n` matters for
the metadata framing, so the buffer is represented by its remaining byte
count.  `s` is `sinceMetaBlock`.  At every metadata boundary the Go code
re-reads the music info and evaluates the guard
`musicInfo != nil && musicInfo.Filename != ""` of line 171 afresh; when
it fails the block is skipped but `sinceMetaBlock = 0` still runs (line
180).  `g k` is the value of that guard at the `k`-th boundary of the
session, and `k` counts boundaries hit so far.  Each Go iteration sends
`toSend = min (I - s) n` audio bytes (skipped when 0) and, when
`sinceMetaBlock ≥ I` still holds with buffer bytes left, handles a
boundary (block if `g k`, reset either way); that boundary case is the
`min (I - s) n = 0` branch here.  The `I = 0` sub-branch is unreachable
because `effectiveMetaInterval` is positive (with `I = 0` the Go loop
would not terminate).  Returns the written items, the final
`sinceMetaBlock` and the next boundary index. -/
def icyWriteBuf (I : Nat) (g : Nat → Bool) (k s n : Nat) : List StreamItem × Nat × Nat :=
  if n = 0 then ([], s, k)
  else if min (I - s) n = 0 then
    if I = 0 then ([], s, k)
    else
      let r := icyWriteBuf I g (k + 1) 0 n
      ((if g k then [StreamItem.meta] else []) ++ r.1, r.2)
  else
    let r := icyWriteBuf I g k (s + min (I - s) n) (n - min (I - s) n)
    (StreamItem.audio (min (I - s) n) :: r.1, r.2)
termination_by 2 * n + (if I ≤ s then 1 else 0)
decreasing_by
  · simp_wf
    split <;> split <;> omega
  · simp_wf
    split <;> split <;> omega

/-- The streaming loop of a `wants_meta` session (fm.go lines 113-194)
restricted to what it writes: `bufs` are the lengths of the successive
target buffers (the first delivery's `InitialBuffer`, then the
`UnitBuffer` of each later snapshot), and `sinceMetaBlock` and the
boundary index are threaded across buffers exactly as in the Go code
(`sinceMetaBlock` starts at 0, fm.go line 111). -/
def icySession (I : Nat) (g : Nat → Bool) : Nat → Nat → List Nat → List StreamItem
  | _, _, [] => []
  | k, s, b :: bs =>
      let r := icyWriteBuf I g k s b
      r.1 ++ icySession I g r.2.2 r.2.1 bs

/-- Total number of audio (non-metadata) bytes in a written item list. -/
def audioSum : List StreamItem → Nat
  | [] => 0
  | StreamItem.audio k :: rest => k + audioSum rest
  | StreamItem.meta :: rest => audioSum rest

/-- Spacing invariant of a written item list: starting with `c` audio
bytes already counted since the last metadata block, the audio counter
never exceeds `I`, every metadata block occurs at counter exactly `I`
and resets it, and the list ends with counter `c'`. -/
def follows (I : Nat) : Nat → List StreamItem → Nat → Prop
  | c, [], c' => c = c'
  | c, StreamItem.audio k :: rest, c' => c + k ≤ I ∧ follows I (c + k) rest c'
  | c, StreamItem.meta :: rest, c' => c = I ∧ follows I 0 rest c'

/-- Spacing automaton of the write loop with per-boundary guards:
`SpacedRun I c l c'` says the item list `l` can be produced starting
with counter `c` (audio bytes since the last boundary) and ending with
counter `c'`, where an audio chunk never crosses a boundary, an emitted
metadata block occurs exactly at counter `I` and resets it, and a
`skip` step is a boundary at counter `I` whose block was suppressed by
the filename guard — it resets the counter but writes nothing. -/
inductive SpacedRun (I : Nat) : Nat → List StreamItem → Nat → Prop where
  | nil (c : Nat) : SpacedRun I c [] c
  | audio (c k : Nat) (rest : List StreamItem) (c' : Nat) :
      c + k ≤ I → SpacedRun I (c + k) rest c' →
      SpacedRun I c (StreamItem.audio k :: rest) c'
  | emit (rest : List StreamItem) (c' : Nat) :
      SpacedRun I 0 rest c' → SpacedRun I I (StreamItem.meta :: rest) c'
  | skip (rest : List StreamItem) (c' : Nat) :
      SpacedRun I 0 rest c' → SpacedRun I I rest c'

/-- Boundary-guard sequence of a session in which the track playing at
the second boundary has an empty stream title (e.g. a file named
exactly `".mp3"`), while the tracks at the other boundaries have
ordinary titles. -/
def c3SkipGuard : Nat → Bool := fun j => j != 1

/-- The stream-title filename computation of `ResetMusicInfo`
(reader.go lines 155-158) on the bytes of `filepath.Base(filePath)`:
`strings.HasSuffix(filename, ".mp3")` (case-sensitive) and, when it
holds, `filename[:len(filename)-4]`. -/
def streamFilenameBytes (name : List Nat) : List Nat :=
  if (strBytes ".mp3").isSuffixOf name then name.take (name.length - 4) else name

/-- The snapshot-consumption skeleton of `GetFMStream` (fm.go lines
109-138): `ord` is the session's local `order` variable (initially 0),
the list holds the `store.Order` values seen at successive loop
iterations, and the result is the sequence of `Order` values whose
buffer bytes are written to the socket (iterations with
`store.Order == order` only sleep and retry). -/
def delivered : Nat → List Nat → List Nat
  | _, [] => []
  | ord, o :: rest => if o = ord then delivered ord rest else o :: delivered o rest

/-! ### Track selection retry (`src/modules/reader.go`, `SelectNextMusic`) -/

/-- Embedding of the open-failure retry behaviour of `SelectNextMusic`
(reader.go lines 86-136) in sequential mode: each attempt advances the
index to the next playlist position (the cached-next-index that the
previous attempt stored) and tries to open that file; on open failure
(reader.go lines 127-132) the function logs and calls itself again with
no retry counter of any kind.  The `fuel` argument is NOT part of the Go
code: it models only the depth of the call stack, and `none` means the
recursion is still running (or the process has died of stack overflow)
after `fuel` nested calls. -/
def SelectNextMusic (openOk : Nat → Bool) (numFiles idx : Nat) : Nat → Option Nat
  | 0 => none
  | fuel + 1 =>
      let nxt := if numFiles ≤ idx + 1 then 0 else idx + 1
      if openOk nxt then some nxt else SelectNextMusic openOk numFiles nxt fuel

/-! ### Playlist scan (`src/modules/reader.go`, `GetMp3FilePaths`) -/

/-- A filesystem subtree as seen by `filepath.Walk`: a non-directory
entry or a directory with children.  `filepath.Walk` visits the children
of each directory in name-sorted order, so trees handed to the model are
expected to carry name-sorted children (checked by `sortedTreeB`). -/
inductive FSTree where
  | file (name : String)
  | dir (name : String) (children : List FSTree)

/-- Path concatenation as done by `filepath.Walk` on Unix. -/
def joinPath (pre name : String) : String :=
  pre ++ "/" ++ name

/-- ASCII byte lowering, the byte-level effect of `strings.ToLower` on
the ASCII names modelled here. -/
def toLowerByte (b : Nat) : Nat :=
  if 65 ≤ b ∧ b ≤ 90 then b + 32 else b

/-- The filter of reader.go line 466:
`strings.HasSuffix(strings.ToLower(info.Name()), ".mp3")` on a
non-directory entry — a bytewise suffix check on the lower-cased name. -/
def isMp3Name (n : String) : Bool :=
  (strBytes ".mp3").isSuffixOf ((strBytes n).map toLowerByte)

mutual

/-- The `filepath.Walk` traversal of reader.go lines 462-470, collecting
the full paths of non-directory entries whose lower-cased name ends in
`.mp3`, in walk order (depth-first, children in list order). -/
def walkCollect : String → FSTree → List String
  | pre, .file n => if isMp3Name n then [joinPath pre n] else []
  | pre, .dir n cs => walkCollectList (joinPath pre n) cs

/-- Walk of a list of sibling entries under path `pre`. -/
def walkCollectList : String → List FSTree → List String
  | _, [] => []
  | pre, t :: ts => walkCollect pre t ++ walkCollectList pre ts

end

mutual

/-- All non-directory entries below a subtree, as (full path, name)
pairs in walk order, with no filter. -/
def allFiles : String → FSTree → List (String × String)
  | pre, .file n => [(joinPath pre n, n)]
  | pre, .dir n cs => allFilesList (joinPath pre n) cs

/-- All non-directory entries below a list of sibling entries. -/
def allFilesList : String → List FSTree → List (String × String)
  | _, [] => []
  | pre, t :: ts => allFiles pre t ++ allFilesList pre ts

end

/-- Embedding of `GetMp3FilePaths` (reader.go lines 460-480): walks the
configured directory (given as its path `dir` and its entries) and
returns the matching paths, or `none` — the `no mp3 files found` error —
when there are none.  Walk I/O errors are outside the model. -/
def GetMp3FilePaths (dir : String) (entries : List FSTree) : Option (List String) :=
  let mp3Files := walkCollectList dir entries
  if mp3Files = [] then none else some mp3Files

/-- Strict bytewise lexicographic order on byte lists. -/
def bytesLt : List Nat → List Nat → Bool
  | [], [] => false
  | [], _ :: _ => true
  | _ :: _, [] => false
  | a :: as, b :: bs => if a < b then true else if b < a then false else bytesLt as bs

/-- Lexicographic order on strings via their bytes (for the ASCII names
used here this is the order Go's `sort.Strings` uses). -/
def strLt (a b : String) : Bool :=
  bytesLt (strBytes a) (strBytes b)

/-- Checks that a path list is sorted lexicographically by full path. -/
def pathsSortedB : List String → Bool
  | [] => true
  | [_] => true
  | a :: b :: rest => (!(strLt b a)) && pathsSortedB (b :: rest)

/-- Name of a tree entry. -/
def nameOf : FSTree → String
  | .file n => n
  | .dir n _ => n

/-- Checks that a name list is sorted (duplicates allowed). -/
def namesSortedB : List String → Bool
  | [] => true
  | [_] => true
  | a :: b :: rest => (!(strLt b a)) && namesSortedB (b :: rest)

mutual

/-- Checks that every directory in the tree has name-sorted children,
the order in which `filepath.Walk` visits them. -/
def sortedTreeB : FSTree → Bool
  | .file _ => true
  | .dir _ cs => namesSortedB (cs.map nameOf) && sortedTreeListB cs

/-- List version of `sortedTreeB`. -/
def sortedTreeListB : List FSTree → Bool
  | [] => true
  | t :: ts => sortedTreeB t && sortedTreeListB ts

end

/-- Music directory whose walk order is not full-path lexicographic:
a directory `a` (holding `b.mp3`) next to a file `a.mp3`.  The children
are name-sorted (`"a" < "a.mp3"`), as `filepath.Walk` visits them. -/
def prefixCollisionEntries : List FSTree :=
  [FSTree.dir "a" [FSTree.file "b.mp3"], FSTree.file "a.mp3"]

/-! ### Transcoder fallback (`src/modules/transcoder.go`, `TranscodeAudio`) -/

/-- Environment of one `TranscodeAudio` call: whether the cache file
already exists (`IsCached`), whether `os.MkdirAll` succeeds, whether
`GetFFmpegPath` finds a binary, and whether the ffmpeg run exits 0. -/
structure TranscodeEnv where
  cached : Bool
  mkdirOk : Bool
  ffmpegFound : Bool
  runOk : Bool
deriving DecidableEq, Repr

/-- Go's `filepath.Base` for the slash-separated paths used here (the
component after the last `/`). -/
def baseName (p : String) : String :=
  (p.splitOn "/").getLastD p

/-- `GetCachedPath` (transcoder.go lines 43-46):
`filepath.Join(Config.CacheDir, filepath.Base(originalPath))`. -/
def GetCachedPath (cacheDir originalPath : String) : String :=
  joinPath cacheDir (baseName originalPath)

/-- Embedding of `TranscodeAudio` (transcoder.go lines 58-100): returns
the path the caller should play plus the error value returned to the
caller.  Every branch of the Go function returns `nil` as the error;
failures are logged and fall back to the original `filePath`. -/
def TranscodeAudio (env : TranscodeEnv) (cacheDir filePath : String) : String × Option String :=
  let cachedPath := GetCachedPath cacheDir filePath
  if env.cached then (cachedPath, none)
  else if !env.mkdirOk then (filePath, none)
  else if !env.ffmpegFound then (filePath, none)
  else if !env.runOk then (filePath, none)
  else (cachedPath, none)

/-! ### Music info lookup (`src/modules/reader.go` and `src/routes/server.go`) -/

/-- `IMusicInfoStoreData` (reader.go lines 32-38). -/
structure IMusicInfoStoreData where
  title : String
  artist : String
  sampleRate : String
  bitRate : String
  filename : String
deriving DecidableEq, Repr

/-- `IMusicInfo` (reader.go lines 40-47). -/
structure IMusicInfo where
  title : String
  artist : String
  sampleRate : String
  bitRate : String
  url : String
  filename : String
deriving DecidableEq, Repr

/-- `GetMusicInfoStoreData` (reader.go lines 202-209): `Store.Load` on
the info key; `info?` is the store content for that key, `none` when
nothing was ever stored, in which case the Go function returns `nil`. -/
def GetMusicInfoStoreData (info? : Option IMusicInfoStoreData) : Option IMusicInfoStoreData :=
  info?

/-- Embedding of `GetMusicInfo` (reader.go lines 211-221).  The Go code
reads `info.Title`, `info.Artist`, ... without checking the pointer it
got from `GetMusicInfoStoreData`; when that pointer is nil the field
accesses panic, modelled here as the `none` result (no value is ever
produced). -/
def GetMusicInfo (info? : Option IMusicInfoStoreData) : Option IMusicInfo :=
  match GetMusicInfoStoreData info? with
  | none => none
  | some info =>
      some { url := "/", title := info.title, artist := info.artist,
             sampleRate := info.sampleRate, bitRate := info.bitRate,
             filename := info.filename }

/-- The JSON body of `/status` (server.go lines 73-85). -/
structure StatusResponse where
  status : String
  title : String
  artist : String
  bitrate : String
  samplerate : String
deriving DecidableEq, Repr

/-- Embedding of `GetStreamStatus` (server.go lines 73-85): builds the
JSON response from `GetMusicInfo`.  When `GetMusicInfo` panics (the
`none` case) no response is produced — the handler dies with the panic
instead of answering, modelled as `none`. -/
def GetStreamStatus (info? : Option IMusicInfoStoreData) : Option StatusResponse :=
  match GetMusicInfo info? with
  | none => none
  | some i =>
      some { status := "playing", title := i.filename, artist := i.artist,
             bitrate := i.bitRate, samplerate := i.sampleRate }

/-! ### Concrete inputs used by witnesses and counterexamples -/

/-- A store snapshot with a 4-byte initial buffer. -/
def c2Store : StoreData :=
  { InitialBuffer := [0, 0, 0, 0], UnitBuffer := [], Timeout := 0, Order := 1 }

/-- One read pass returning a single 2-byte frame. -/
def c2Slots : List (Option Frame) :=
  [some { raw := [9, 9], sampleCount := 1152, samplingRate := 44100 }]

/-- The snapshot `SetUnitBuffer c2Store c2Slots` publishes. -/
def c2Store' : StoreData :=
  { InitialBuffer := [0, 0, 9, 9], UnitBuffer := [9, 9], Timeout := 26, Order := 2 }

/-- A standard 4-byte MPEG-like frame with 1152 samples at 44100 Hz. -/
def smallFrame : Frame :=
  { raw := [1, 2, 3, 4], sampleCount := 1152, samplingRate := 44100 }

/-- Frame-read results for a first track with only 10 frames: the
remaining 490 of the `InitialFrame` reads return nil (the file is
exhausted and closed). -/
def c10ShortTrack : List (Option Frame) :=
  List.replicate 10 (some smallFrame) ++ List.replicate 490 none

/-- Frame-read results of the first `SetUnitBuffer` pass on the next
(normal) track: all `UnitFrame` reads succeed. -/
def c10NextSlots : List (Option Frame) :=
  List.replicate 50 (some smallFrame)

/-- A 4052-byte filename, making the ICY payload 4081 bytes long. -/
def longName : List Nat := List.replicate 4052 97

/-- The stream url `"/"`. -/
def slashUrl : List Nat := [47]

/-- The filename bytes of `"song"`. -/
def songName : List Nat := strBytes "song"

/-- A store snapshot with a 1-byte initial buffer. -/
def c4Store : StoreData :=
  { InitialBuffer := [0], UnitBuffer := [], Timeout := 0, Order := 3 }

/-- One read pass returning a single 1-byte frame of 1152 samples at
44100 Hz, whose exact duration is 1152000/44100 = 26.122… ms. -/
def c4Slots : List (Option Frame) :=
  [some { raw := [7], sampleCount := 1152, samplingRate := 44100 }]

/-- Initial-buffer read results with three frames (short witness input). -/
def c4InitSlots : List (Option Frame) :=
  [some smallFrame, none, some smallFrame]

mutual

/-- Proof by mutual structural recursion: the walk's inline filter is
the filter of the unfiltered file listing (paths of the files whose name
matches `isMp3Name`, in the same walk order). -/
def walk_eq : ∀ (t : FSTree) (pre : String),
    walkCollect pre t = ((allFiles pre t).filter fun e => isMp3Name e.2).map Prod.fst
  | .file n, pre => by
      by_cases h : isMp3Name n
      · simp [walkCollect, allFiles, h]
      · simp [walkCollect, allFiles, h]
  | .dir n cs, pre => by
      rw [walkCollect, allFiles]
      exact walkList_eq cs (joinPath pre n)

/-- Sibling-list version of `walk_eq`. -/
def walkList_eq : ∀ (cs : List FSTree) (pre : String),
    walkCollectList pre cs = ((allFilesList pre cs).filter fun e => isMp3Name e.2).map Prod.fst
  | [], _ => by simp [walkCollectList, allFilesList]
  | t :: ts, pre => by
      rw [walkCollectList, allFilesList, List.filter_append, List.map_append,
          walk_eq t pre, walkList_eq ts pre]

end

end GoStream

namespace GoStream

/-! ## Theorems -/

/-! ### C1: shape of the ICY metadata block -/

/-- Closed form of `BuildIcecastMetadata`: one truncated length byte,
then the payload, then zero padding up to the block boundary. -/
theorem buildIcecast_eq (f u : List Nat) :
    BuildIcecastMetadata f u =
      ((icyPayload f u).length + 15) / 16 % 256 :: icyPayload f u
        ++ List.replicate ((((icyPayload f u).length + 15) / 16) * 16 - (icyPayload f u).length) 0 := by
  unfold BuildIcecastMetadata goCopy
  dsimp only
  generalize icyPayload f u = P
  have hLB : P.length ≤ (P.length + 15) / 16 * 16 := by omega
  rw [Nat.add_comm 1 ((P.length + 15) / 16 * 16), List.replicate_succ, List.set_cons_zero]
  have hlen : ((P.length + 15) / 16 % 256 :: List.replicate ((P.length + 15) / 16 * 16) 0).length - 1
      = (P.length + 15) / 16 * 16 := by simp
  rw [hlen, Nat.min_eq_right hLB, List.take_length]
  have htake : ((P.length + 15) / 16 % 256 :: List.replicate ((P.length + 15) / 16 * 16) 0).take 1
      = [(P.length + 15) / 16 % 256] := rfl
  have hdrop : ((P.length + 15) / 16 % 256 :: List.replicate ((P.length + 15) / 16 * 16) 0).drop
      (1 + P.length) = List.replicate ((P.length + 15) / 16 * 16 - P.length) 0 := by
    rw [Nat.add_comm, List.drop_succ_cons, List.drop_replicate]
  rw [htake, hdrop]
  rfl

/-- Claim C1 (amended): as long as the payload fits 255 blocks (payload
length at most 4080), the metadata block is the block count, the
payload, and zero padding, with total length `1 + 16·ceil(L/16)`.
Without that bound Go's `byte(blockCount)` cast truncates mod 256 (see
the counterexample). -/
theorem c1_metadata_block_shape (f u : List Nat)
    (hB : ((icyPayload f u).length + 15) / 16 ≤ 255) :
    BuildIcecastMetadata f u =
      ((icyPayload f u).length + 15) / 16 :: icyPayload f u
        ++ List.replicate ((((icyPayload f u).length + 15) / 16) * 16 - (icyPayload f u).length) 0 ∧
    (BuildIcecastMetadata f u).length = 1 + (((icyPayload f u).length + 15) / 16) * 16 := by
  have he := buildIcecast_eq f u
  rw [Nat.mod_eq_of_lt (by omega)] at he
  refine ⟨he, ?_⟩
  rw [he]
  simp only [List.length_cons, List.length_append, List.length_replicate]
  omega

/-- Witness for C1 at the payload `StreamTitle='song';StreamUrl='/';`
(33 bytes, 3 blocks, 49 total). -/
theorem c1_metadata_block_shape_witness :
    BuildIcecastMetadata songName slashUrl =
      ((icyPayload songName slashUrl).length + 15) / 16 :: icyPayload songName slashUrl
        ++ List.replicate ((((icyPayload songName slashUrl).length + 15) / 16) * 16
            - (icyPayload songName slashUrl).length) 0 ∧
    (BuildIcecastMetadata songName slashUrl).length
      = 1 + (((icyPayload songName slashUrl).length + 15) / 16) * 16 :=
  c1_metadata_block_shape songName slashUrl (by decide)

/-- Counterexample to C1 as stated: for a 4052-byte filename the payload
is 4081 bytes, `ceil(L/16) = 256`, and byte 0 of the block is
`256 mod 256 = 0`, not 256. -/
theorem c1_counterexample :
    (BuildIcecastMetadata longName slashUrl).head? ≠
      some (((icyPayload longName slashUrl).length + 15) / 16) := by
  have hA : (strBytes "StreamTitle='").length = 13 := rfl
  have hB2 : (strBytes "';StreamUrl='").length = 13 := rfl
  have hC : (strBytes "';").length = 2 := rfl
  have hlen : (icyPayload longName slashUrl).length = 4081 := by
    rw [icyPayload]
    rw [List.length_append, List.length_append, List.length_append, List.length_append]
    rw [hA, hB2, hC, longName, slashUrl, List.length_replicate]
    rfl
  have he := buildIcecast_eq longName slashUrl
  rw [hlen] at he ⊢
  rw [he]
  norm_num

/-! ### C4: published pacing duration -/

/-- The unit-read loop returns the concatenated raw bytes of the frames
actually read and the sum of their per-frame truncated millisecond
durations. -/
theorem readUnitAux_eq (slots : List (Option Frame)) :
    readUnitAux slots =
      ((slots.filterMap id).flatMap Frame.raw, ((slots.filterMap id).map frameMs).sum) := by
  induction slots with
  | nil => rfl
  | cons s rest ih =>
      cases s with
      | none => simpa [readUnitAux] using ih
      | some f => simp [readUnitAux, ih]

/-- The initial-read loop: the initial buffer collects every frame read,
while the unit buffer and timeout collect exactly the frames read at
loop indices `≥ InitialFrame - UnitFrame` (index of the first slot is
`i`). -/
theorem readInitialAux_eq (slots : List (Option Frame)) :
    ∀ i, readInitialAux i slots =
      ((slots.filterMap id).flatMap Frame.raw,
       (((slots.drop (InitialFrame - UnitFrame - i)).filterMap id).flatMap Frame.raw,
        (((slots.drop (InitialFrame - UnitFrame - i)).filterMap id).map frameMs).sum)) := by
  induction slots with
  | nil => intro i; simp [readInitialAux]
  | cons s rest ih =>
      intro i
      by_cases h : InitialFrame - UnitFrame ≤ i
      · have h0 : InitialFrame - UnitFrame - i = 0 := by omega
        have h1 : InitialFrame - UnitFrame - (i + 1) = 0 := by omega
        cases s with
        | none => simp [readInitialAux, ih (i + 1), h0, h1]
        | some f => simp [readInitialAux, ih (i + 1), h0, h1, h]
      · have h0 : InitialFrame - UnitFrame - i = (InitialFrame - UnitFrame - (i + 1)) + 1 := by
          omega
        cases s with
        | none => simp [readInitialAux, ih (i + 1), h0, List.drop_succ_cons]
        | some f => simp [readInitialAux, ih (i + 1), h0, List.drop_succ_cons, h]

/-- Claim C4 (amended): the published `Timeout` equals the sum, over
exactly the frames the unit buffer was assembled from, of the per-frame
value `1000·samples/rate` computed with truncating integer division —
for `SetUnitBuffer` the frames of the read pass, for `SetInitialBuffer`
the frames read at the last `UnitFrame` loop indices.  With real
division (the exact wall-clock duration) the equality fails, see the
counterexample. -/
theorem c4_pacing_floor (store s' : StoreData) (slots islots : List (Option Frame))
    (hpub : SetUnitBuffer store slots = UnitResult.published s') :
    s'.UnitBuffer = (slots.filterMap id).flatMap Frame.raw ∧
    s'.Timeout = ((slots.filterMap id).map frameMs).sum ∧
    (SetInitialBuffer islots).UnitBuffer
      = ((islots.drop (InitialFrame - UnitFrame)).filterMap id).flatMap Frame.raw ∧
    (SetInitialBuffer islots).Timeout
      = (((islots.drop (InitialFrame - UnitFrame)).filterMap id).map frameMs).sum := by
  have hr := readUnitAux_eq slots
  have hi := readInitialAux_eq islots 0
  refine ⟨?_, ?_, ?_, ?_⟩
  · unfold SetUnitBuffer at hpub
    by_cases h1 : (readUnitAux slots).1 = []
    · simp [h1] at hpub
    · by_cases h2 : (readUnitAux slots).1.length ≤ store.InitialBuffer.length
      · simp only [if_neg h1, if_pos h2] at hpub
        cases hpub
        rw [hr]
      · simp [h1, h2] at hpub
  · unfold SetUnitBuffer at hpub
    by_cases h1 : (readUnitAux slots).1 = []
    · simp [h1] at hpub
    · by_cases h2 : (readUnitAux slots).1.length ≤ store.InitialBuffer.length
      · simp only [if_neg h1, if_pos h2] at hpub
        cases hpub
        rw [hr]
      · simp [h1, h2] at hpub
  · simp [SetInitialBuffer, hi]
  · simp [SetInitialBuffer, hi]

/-- Witness for C4 at a concrete read pass and initial read. -/
theorem c4_pacing_floor_witness :
    c2Store'.UnitBuffer = (c2Slots.filterMap id).flatMap Frame.raw ∧
    c2Store'.Timeout = ((c2Slots.filterMap id).map frameMs).sum ∧
    (SetInitialBuffer c4InitSlots).UnitBuffer
      = ((c4InitSlots.drop (InitialFrame - UnitFrame)).filterMap id).flatMap Frame.raw ∧
    (SetInitialBuffer c4InitSlots).Timeout
      = (((c4InitSlots.drop (InitialFrame - UnitFrame)).filterMap id).map frameMs).sum :=
  c4_pacing_floor c2Store c2Store' c2Slots c4InitSlots (by decide)

/-- Counterexample to C4 as stated: the published pacing duration of a
single 1152-sample 44100 Hz frame is 26 ms, but the wall-clock duration
that frame represents is 1152000/44100 = 26.122… ms. -/
theorem c4_counterexample :
    publishedTimeout (SetUnitBuffer c4Store c4Slots) = some 26 ∧
    ((26 : ℚ) ≠ (1000 * 1152 : ℚ) / 44100) :=
  ⟨by decide, by norm_num⟩

/-! ### C2: rolling snapshot invariant -/

/-- Claim C2: for consecutive published snapshots, the `Order` counter
increments by one, the new `InitialBuffer` is the old one with its first
`len UnitBuffer` bytes removed and the new `UnitBuffer` appended, and
the length of `InitialBuffer` is unchanged.  The hypothesis says the
`SetUnitBuffer` pass actually published (on the panic or no-publish
paths no snapshot is produced at all). -/
theorem c2_rolling_snapshot (store s' : StoreData) (slots : List (Option Frame))
    (hpub : SetUnitBuffer store slots = UnitResult.published s') :
    s'.Order = store.Order + 1 ∧
    s'.InitialBuffer = store.InitialBuffer.drop s'.UnitBuffer.length ++ s'.UnitBuffer ∧
    s'.InitialBuffer.length = store.InitialBuffer.length := by
  unfold SetUnitBuffer at hpub
  by_cases h1 : (readUnitAux slots).1 = []
  · simp [h1] at hpub
  · by_cases h2 : (readUnitAux slots).1.length ≤ store.InitialBuffer.length
    · simp only [if_neg h1, if_pos h2] at hpub
      cases hpub
      refine ⟨rfl, rfl, ?_⟩
      simp only [List.length_append, List.length_drop]
      omega
    · simp [h1, h2] at hpub

/-- Witness for C2 at a concrete snapshot and read pass. -/
theorem c2_rolling_snapshot_witness :
    c2Store'.Order = c2Store.Order + 1 ∧
    c2Store'.InitialBuffer = c2Store.InitialBuffer.drop c2Store'.UnitBuffer.length
      ++ c2Store'.UnitBuffer ∧
    c2Store'.InitialBuffer.length = c2Store.InitialBuffer.length :=
  c2_rolling_snapshot c2Store c2Store' c2Slots (by decide)

/-! ### C6: retry on open failure is unbounded -/

/-- Claim C6 (refuting theorem): when every file open fails,
`SelectNextMusic` never stops retrying, at every recursion depth: the
code carries no retry counter, so the only bound is the artificial
`fuel` (the call stack), and no attempt budget ever surfaces an error. -/
theorem c6_unbounded_retry (numFiles idx fuel : Nat) :
    SelectNextMusic (fun _ => false) numFiles idx fuel = none := by
  induction fuel generalizing idx with
  | zero => rfl
  | succ f ih => simp only [SelectNextMusic, Bool.false_eq_true, if_false, ih]

/-! ### C8: transcoder never propagates an error -/

/-- Claim C8: `TranscodeAudio` always returns a nil error, and returns
the cache path exactly when the file is already cached or the whole
mkdir/ffmpeg-lookup/transcode chain succeeds; on any failure it falls
back to the original source path. -/
theorem c8_transcode_fallback (env : TranscodeEnv) (cacheDir filePath : String) :
    (TranscodeAudio env cacheDir filePath).2 = none ∧
    (TranscodeAudio env cacheDir filePath).1 =
      (if env.cached ∨ (env.mkdirOk ∧ env.ffmpegFound ∧ env.runOk)
       then GetCachedPath cacheDir filePath else filePath) := by
  rcases env with ⟨c, m, f, r⟩
  cases c <;> cases m <;> cases f <;> cases r <;> simp [TranscodeAudio]

/-! ### C9: nil dereference when no music info was ever stored -/

/-- Claim C9: before the producer stores any track info,
`GetMusicInfoStoreData` returns the nil pointer, `GetMusicInfo`
dereferences it (the `none` results model the panic), and `/status`
produces no JSON response. -/
theorem c9_status_panic :
    GetMusicInfoStoreData none = none ∧
    GetMusicInfo none = none ∧
    GetStreamStatus none = none :=
  ⟨rfl, rfl, rfl⟩

/-! ### C10: reachable out-of-range slice in `SetUnitBuffer` -/

/-! ### C3: byte-exact metadata spacing -/

/-- Helper: when the filename guard holds at every boundary, the buffer
write loop preserves the exact spacing invariant — the items it writes
`follows` from the entry counter to the exit counter, which never
exceeds the interval. -/
theorem icyWriteBuf_follows (I : Nat) (hI : 0 < I) (g : Nat → Bool) (hg : ∀ j, g j = true) :
    ∀ k s n, s ≤ I →
      follows I s (icyWriteBuf I g k s n).1 (icyWriteBuf I g k s n).2.1 ∧
      (icyWriteBuf I g k s n).2.1 ≤ I := by
  intro k s n
  induction k, s, n using icyWriteBuf.induct I g with
  | case1 k s =>
      intro hs
      rw [icyWriteBuf]
      simp [follows, hs]
  | case2 k s n hn hts hI0 =>
      intro hs
      omega
  | case3 k s n hn hts hI0 ih =>
      intro hs
      have hsI : s = I := by omega
      have h0 := ih (Nat.zero_le I)
      rw [icyWriteBuf, if_neg hn, if_pos hts, if_neg hI0]
      rw [hg k]
      refine ⟨?_, h0.2⟩
      simpa [follows, hsI] using h0.1
  | case4 k s n hn hts ih =>
      intro hs
      have htI : s + min (I - s) n ≤ I := by omega
      have h0 := ih htI
      rw [icyWriteBuf, if_neg hn, if_neg hts]
      refine ⟨?_, h0.2⟩
      exact ⟨htI, h0.1⟩

/-- Helper: the buffer write loop always produces a `SpacedRun`: audio
chunks never cross a boundary, emitted blocks sit exactly at counter
`I`, and suppressed blocks are `skip` resets. -/
theorem icyWriteBuf_spaced (I : Nat) (hI : 0 < I) (g : Nat → Bool) :
    ∀ k s n, s ≤ I →
      SpacedRun I s (icyWriteBuf I g k s n).1 (icyWriteBuf I g k s n).2.1 ∧
      (icyWriteBuf I g k s n).2.1 ≤ I := by
  intro k s n
  induction k, s, n using icyWriteBuf.induct I g with
  | case1 k s =>
      intro hs
      rw [icyWriteBuf]
      exact ⟨SpacedRun.nil s, hs⟩
  | case2 k s n hn hts hI0 =>
      intro hs
      omega
  | case3 k s n hn hts hI0 ih =>
      intro hs
      have hsI : s = I := by omega
      have h0 := ih (Nat.zero_le I)
      rw [icyWriteBuf, if_neg hn, if_pos hts, if_neg hI0]
      subst hsI
      refine ⟨?_, h0.2⟩
      by_cases hgk : g k = true
      · rw [hgk]
        simpa using SpacedRun.emit _ _ h0.1
      · rw [Bool.not_eq_true] at hgk
        rw [hgk]
        simpa using SpacedRun.skip _ _ h0.1
  | case4 k s n hn hts ih =>
      intro hs
      have htI : s + min (I - s) n ≤ I := by omega
      have h0 := ih htI
      rw [icyWriteBuf, if_neg hn, if_neg hts]
      exact ⟨SpacedRun.audio _ _ _ _ htI h0.1, h0.2⟩

/-- Helper: spacing runs compose over list concatenation. -/
theorem spacedRun_append (I : Nat) {l₁ l₂ : List StreamItem} {c d e : Nat}
    (h1 : SpacedRun I c l₁ d) (h2 : SpacedRun I d l₂ e) :
    SpacedRun I c (l₁ ++ l₂) e := by
  induction h1 with
  | nil c => simpa using h2
  | audio c k rest c' hk _ ih => exact SpacedRun.audio _ _ _ _ hk (ih h2)
  | emit rest c' _ ih => exact SpacedRun.emit _ _ (ih h2)
  | skip rest c' _ ih => exact SpacedRun.skip _ _ (ih h2)

/-- Helper: the session loop produces a spacing run from counter 0. -/
theorem icySession_spaced (I : Nat) (hI : 0 < I) (g : Nat → Bool) :
    ∀ (bufs : List Nat) (k s : Nat), s ≤ I →
      ∃ s', SpacedRun I s (icySession I g k s bufs) s' ∧ s' ≤ I := by
  intro bufs
  induction bufs with
  | nil =>
      intro k s hs
      exact ⟨s, SpacedRun.nil s, hs⟩
  | cons b bs ih =>
      intro k s hs
      have h1 := icyWriteBuf_spaced I hI g k s b hs
      obtain ⟨s', h2, hs'⟩ := ih (icyWriteBuf I g k s b).2.2 (icyWriteBuf I g k s b).2.1 h1.2
      refine ⟨s', ?_, hs'⟩
      rw [icySession]
      exact spacedRun_append I h1.1 h2

/-- Helper: a spacing run can be entered after any prefix of items. -/
theorem spacedRun_mid (I : Nat) :
    ∀ (l₁ rest : List StreamItem) (c e : Nat),
      SpacedRun I c (l₁ ++ rest) e → ∃ d, SpacedRun I d rest e := by
  intro l₁ rest c e h
  generalize hL : l₁ ++ rest = L at h
  induction h generalizing l₁ with
  | nil c =>
      rcases List.append_eq_nil.mp hL with ⟨rfl, rfl⟩
      exact ⟨c, SpacedRun.nil c⟩
  | audio c k tail c' hk hsub ih =>
      cases l₁ with
      | nil =>
          refine ⟨c, ?_⟩
          simp only [List.nil_append] at hL
          rw [hL]
          exact SpacedRun.audio _ _ _ _ hk hsub
      | cons a l₁' =>
          simp only [List.cons_append, List.cons.injEq] at hL
          exact ih l₁' hL.2
  | emit tail c' hsub ih =>
      cases l₁ with
      | nil =>
          refine ⟨I, ?_⟩
          simp only [List.nil_append] at hL
          rw [hL]
          exact SpacedRun.emit _ _ hsub
      | cons a l₁' =>
          simp only [List.cons_append, List.cons.injEq] at hL
          exact ih l₁' hL.2
  | skip tail c' hsub ih =>
      exact ih l₁ hL

/-- Helper: a metadata item at the head of a spacing run can only be an
emitted block at counter `I` (a `skip` leaves the list unchanged but
would need counter `I = 0`), so the run continues from counter 0. -/
theorem spacedRun_meta_head (I : Nat) (hI : 0 < I) {X : List StreamItem} {d e : Nat}
    (h : SpacedRun I d (StreamItem.meta :: X) e) : SpacedRun I 0 X e := by
  cases h with
  | emit rest c' hsub => exact hsub
  | skip rest c' hsub =>
      cases hsub with
      | emit rest2 c2 h2 => omega
      | skip rest2 c2 h2 => omega

/-- Helper: on a meta-free stretch of a spacing run that ends at an
emitted block, the audio written completes the entry counter to `I`
plus `I` per suppressed boundary crossed on the way. -/
theorem spacedRun_count (I : Nat) :
    ∀ (l l₃ : List StreamItem) (c e : Nat),
      SpacedRun I c (l ++ StreamItem.meta :: l₃) e → StreamItem.meta ∉ l →
      ∃ j, c + audioSum l = I + j * I := by
  intro l l₃ c e h hfree
  generalize hL : l ++ StreamItem.meta :: l₃ = L at h
  induction h generalizing l with
  | nil c => simp at hL
  | audio c k tail c' hk hsub ih =>
      cases l with
      | nil => simp at hL
      | cons a l' =>
          simp only [List.cons_append, List.cons.injEq] at hL
          obtain ⟨rfl, hL2⟩ := hL
          obtain ⟨j, hj⟩ := ih l' (fun hm => hfree (List.mem_cons_of_mem _ hm)) hL2
          refine ⟨j, ?_⟩
          simp only [audioSum]
          omega
  | emit tail c' hsub ih =>
      cases l with
      | nil =>
          refine ⟨0, ?_⟩
          simp [audioSum]
      | cons a l' =>
          simp only [List.cons_append, List.cons.injEq] at hL
          obtain ⟨rfl, -⟩ := hL
          exact absurd (List.mem_cons_self _ _) hfree
  | skip tail c' hsub ih =>
      obtain ⟨j, hj⟩ := ih l hfree hL
      refine ⟨j + 1, ?_⟩
      have : audioSum l = I + j * I := by omega
      rw [this]
      ring

/-- Helper: `follows` runs compose over list concatenation. -/
theorem follows_append (I : Nat) :
    ∀ (l₁ l₂ : List StreamItem) (c d e : Nat),
      follows I c l₁ d → follows I d l₂ e → follows I c (l₁ ++ l₂) e := by
  intro l₁
  induction l₁ with
  | nil =>
      intro l₂ c d e h1 h2
      simp only [follows] at h1
      subst h1
      simpa using h2
  | cons a rest ih =>
      intro l₂ c d e h1 h2
      cases a with
      | audio k =>
          simp only [follows, List.cons_append] at h1 ⊢
          exact ⟨h1.1, ih _ _ _ _ h1.2 h2⟩
      | meta =>
          simp only [follows, List.cons_append] at h1 ⊢
          exact ⟨h1.1, ih _ _ _ _ h1.2 h2⟩

/-- Helper: when the filename guard always holds, the session loop
writes a `follows` run from its starting counter. -/
theorem icySession_follows (I : Nat) (hI : 0 < I) (g : Nat → Bool) (hg : ∀ j, g j = true) :
    ∀ (bufs : List Nat) (k s : Nat), s ≤ I →
      ∃ s', follows I s (icySession I g k s bufs) s' ∧ s' ≤ I := by
  intro bufs
  induction bufs with
  | nil =>
      intro k s hs
      exact ⟨s, by simp [icySession, follows], hs⟩
  | cons b bs ih =>
      intro k s hs
      have h1 := icyWriteBuf_follows I hI g hg k s b hs
      obtain ⟨s', h2, hs'⟩ := ih (icyWriteBuf I g k s b).2.2 (icyWriteBuf I g k s b).2.1 h1.2
      refine ⟨s', ?_, hs'⟩
      rw [icySession]
      exact follows_append I _ _ _ _ _ h1.1 h2

/-- Helper: a `follows` run can be entered after any prefix of items,
at some counter value that is still at most the interval. -/
theorem follows_mid (I : Nat) :
    ∀ (l₁ rest : List StreamItem) (c e : Nat),
      follows I c (l₁ ++ rest) e → c ≤ I → ∃ d, d ≤ I ∧ follows I d rest e := by
  intro l₁
  induction l₁ with
  | nil =>
      intro rest c e h hc
      exact ⟨c, hc, h⟩
  | cons a l ih =>
      intro rest c e h hc
      cases a with
      | audio k =>
          simp only [follows, List.cons_append] at h
          exact ih rest (c + k) e h.2 h.1
      | meta =>
          simp only [follows, List.cons_append] at h
          exact ih rest 0 e h.2 (Nat.zero_le I)

/-- Helper: on a meta-free stretch ending at a metadata block, the audio
bytes written complete the entry counter to exactly the interval. -/
theorem follows_span (I : Nat) :
    ∀ (l₂ l₃ : List StreamItem) (d e : Nat),
      follows I d (l₂ ++ StreamItem.meta :: l₃) e → d ≤ I →
      StreamItem.meta ∉ l₂ → d + audioSum l₂ = I := by
  intro l₂
  induction l₂ with
  | nil =>
      intro l₃ d e h _ _
      simp only [List.nil_append, follows] at h
      simp [audioSum, h.1]
  | cons a l ih =>
      intro l₃ d e h hd hfree
      cases a with
      | audio k =>
          simp only [follows, List.cons_append] at h
          have := ih l₃ (d + k) e h.2 h.1 (fun hm => hfree (List.mem_cons_of_mem _ hm))
          simp only [audioSum]
          omega
      | meta =>
          exact absurd (List.mem_cons_self _ _) hfree

/-- Claim C3 (amended): in a `wants_meta` session with configured
interval `c` (effective interval `I = effectiveMetaInterval c`) and
filename-guard values `g` at the successive metadata boundaries, the
audio bytes between two consecutive emitted metadata blocks are `m · I`
for some `m ≥ 1`, where `m − 1` boundaries in between were suppressed
because the current track's stream title was empty; when the guard
holds at every boundary the count is exactly `I`. -/
theorem c3_metadata_spacing (c : Int) (g : Nat → Bool) (k₀ : Nat) (bufs : List Nat)
    (l₁ l₂ l₃ : List StreamItem)
    (heq : icySession (effectiveMetaInterval c) g k₀ 0 bufs
      = l₁ ++ StreamItem.meta :: (l₂ ++ StreamItem.meta :: l₃))
    (hfree : StreamItem.meta ∉ l₂) :
    (∃ m, 0 < m ∧ audioSum l₂ = m * effectiveMetaInterval c) ∧
    ((∀ j, g j = true) → audioSum l₂ = effectiveMetaInterval c) := by
  have hI : 0 < effectiveMetaInterval c := by
    unfold effectiveMetaInterval
    split <;> omega
  constructor
  · obtain ⟨s', hsp, _⟩ :=
      icySession_spaced (effectiveMetaInterval c) hI g bufs k₀ 0 (Nat.zero_le _)
    rw [heq] at hsp
    obtain ⟨d, hsp1⟩ := spacedRun_mid (effectiveMetaInterval c) l₁ _ 0 s' hsp
    have hsp2 := spacedRun_meta_head (effectiveMetaInterval c) hI hsp1
    obtain ⟨j, hj⟩ := spacedRun_count (effectiveMetaInterval c) l₂ l₃ 0 s' hsp2 hfree
    refine ⟨j + 1, by omega, ?_⟩
    have hsum : audioSum l₂ = effectiveMetaInterval c + j * effectiveMetaInterval c := by
      omega
    rw [hsum]
    ring
  · intro hg
    obtain ⟨s', hf, _⟩ :=
      icySession_follows (effectiveMetaInterval c) hI g hg bufs k₀ 0 (Nat.zero_le _)
    rw [heq] at hf
    obtain ⟨d, hdI, hf2⟩ :=
      follows_mid (effectiveMetaInterval c) l₁ _ 0 s' hf (Nat.zero_le _)
    simp only [follows] at hf2
    have hspan :=
      follows_span (effectiveMetaInterval c) l₂ l₃ 0 s' hf2.2 (Nat.zero_le _) hfree
    omega

/-- Witness for C3: with interval 4, an always-true guard and one
10-byte buffer the session writes `audio 4, meta, audio 4, meta,
audio 2`; between the two blocks there are exactly 4 = 1·4 audio
bytes. -/
theorem c3_metadata_spacing_witness :
    (∃ m, 0 < m ∧ audioSum [StreamItem.audio 4] = m * effectiveMetaInterval 4) ∧
    ((∀ j, (fun _ : Nat => true) j = true) →
      audioSum [StreamItem.audio 4] = effectiveMetaInterval 4) :=
  c3_metadata_spacing 4 (fun _ => true) 0 [10]
    [StreamItem.audio 4] [StreamItem.audio 4] [StreamItem.audio 2]
    (by
      have h4 : effectiveMetaInterval 4 = 4 := rfl
      have h1 : icyWriteBuf 4 (fun _ => true) 0 0 10
          = ([.audio 4, .meta, .audio 4, .meta, .audio 2], 2, 2) := by
        simp [icyWriteBuf]
      rw [h4, icySession, h1, icySession]
      simp)
    (by simp)

/-- Counterexample to C3 as stated: a session whose second boundary
falls while a track with an empty stream title is current — reachable
with a playlist file named exactly `".mp3"`, which the scan accepts
(`isMp3Name ".mp3" = true`) and `ResetMusicInfo` strips to the empty
filename — writes 8 = 2·4 audio bytes between its two consecutive
emitted blocks at interval 4, not 4: the skipped boundary resets
`sinceMetaBlock` without emitting. -/
theorem c3_counterexample :
    icySession (effectiveMetaInterval 4) c3SkipGuard 0 0 [13]
      = [StreamItem.audio 4] ++ StreamItem.meta ::
          ([StreamItem.audio 4, StreamItem.audio 4] ++ StreamItem.meta :: [StreamItem.audio 1]) ∧
    StreamItem.meta ∉ [StreamItem.audio 4, StreamItem.audio 4] ∧
    audioSum [StreamItem.audio 4, StreamItem.audio 4] ≠ effectiveMetaInterval 4 ∧
    isMp3Name ".mp3" = true ∧
    streamFilenameBytes (strBytes ".mp3") = [] := by
  refine ⟨?_, by simp, by decide, by decide, by decide⟩
  have h4 : effectiveMetaInterval 4 = 4 := rfl
  have h1 : icyWriteBuf 4 c3SkipGuard 0 0 13
      = ([.audio 4, .meta, .audio 4, .audio 4, .meta, .audio 1], 1, 3) := by
    simp [icyWriteBuf, c3SkipGuard]
  rw [h4, icySession, h1, icySession]
  simp

/-! ### C5: strictly increasing delivered snapshot orders -/

/-- Helper: if the observed order values are pairwise non-decreasing and
all at least the session's current local order, the delivered orders are
strictly increasing and all above the local order. -/
theorem delivered_strict (obs : List Nat) :
    ∀ ord, obs.Pairwise (· ≤ ·) → (∀ o ∈ obs, ord ≤ o) →
      List.Chain' (· < ·) (delivered ord obs) ∧ ∀ x ∈ delivered ord obs, ord < x := by
  induction obs with
  | nil => intro ord _ _; exact ⟨by simp [delivered], by simp [delivered]⟩
  | cons o rest ih =>
      intro ord hp hge
      have hrest : rest.Pairwise (· ≤ ·) := (List.pairwise_cons.mp hp).2
      have hhead : ∀ x ∈ rest, o ≤ x := (List.pairwise_cons.mp hp).1
      by_cases h : o = ord
      · have hge' : ∀ x ∈ rest, ord ≤ x := fun x hx => h ▸ hhead x hx
        simpa [delivered, h] using ih ord hrest hge'
      · have hio := ih o hrest hhead
        have hlt : ord < o :=
          lt_of_le_of_ne (hge o (List.mem_cons_self o rest)) (Ne.symm h)
        rw [delivered, if_neg h]
        constructor
        · exact List.chain'_cons'.mpr
            ⟨fun y hy => hio.2 y (List.mem_of_mem_head? hy), hio.1⟩
        · intro x hx
          rcases List.mem_cons.mp hx with rfl | hx'
          · exact hlt
          · exact lt_trans hlt (hio.2 x hx')

/-- Claim C5: within a session, the snapshot `Order` values whose bytes
are written to the socket are strictly increasing (hence never repeated;
skipped values are allowed).  The hypothesis is that the orders read
from the store at successive loop iterations are non-decreasing, which
holds because the producer only ever increments the published order. -/
theorem c5_strict_order (obs : List Nat) (hmono : List.Chain' (· ≤ ·) obs) :
    List.Chain' (· < ·) (delivered 0 obs) ∧ (delivered 0 obs).Nodup := by
  have hp : obs.Pairwise (· ≤ ·) := List.chain'_iff_pairwise.mp hmono
  have h := delivered_strict obs 0 hp (fun o _ => Nat.zero_le o)
  refine ⟨h.1, ?_⟩
  exact (List.chain'_iff_pairwise.mp h.1).nodup

/-- Witness for C5 on a concrete observation sequence with repeats and a
skipped version. -/
theorem c5_strict_order_witness :
    List.Chain' (· < ·) (delivered 0 [1, 1, 2, 3, 3, 7]) ∧
    (delivered 0 [1, 1, 2, 3, 3, 7]).Nodup :=
  c5_strict_order [1, 1, 2, 3, 3, 7] (by simp [List.chain'_cons])

/-! ### C7: playlist scan -/

/-- Claim C7 (amended): `GetMp3FilePaths` returns exactly the
non-directory entries whose name ends case-insensitively in `.mp3`, as
full paths in depth-first walk order (not, in general, sorted
lexicographically by full path — see the counterexample), and returns
the empty-playlist error exactly when no entry matches. -/
theorem c7_scan_characterization (dir : String) (entries : List FSTree) :
    GetMp3FilePaths dir entries =
      (let m := ((allFilesList dir entries).filter fun e => isMp3Name e.2).map Prod.fst
       if m = [] then none else some m) := by
  unfold GetMp3FilePaths
  rw [walkList_eq entries dir]

/-- Counterexample to C7 as stated: in a directory `m` holding a
subdirectory `a` (with `a/b.mp3`) next to a file `a.mp3` — children in
the name-sorted order `filepath.Walk` uses — the walk yields
`m/a/b.mp3` before `m/a.mp3`, which is not lexicographic full-path
order (`.` sorts before `/`). -/
theorem c7_counterexample :
    sortedTreeListB prefixCollisionEntries = true ∧
    GetMp3FilePaths "m" prefixCollisionEntries = some ["m/a/b.mp3", "m/a.mp3"] ∧
    pathsSortedB ["m/a/b.mp3", "m/a.mp3"] = false := by
  refine ⟨?_, ?_, by decide⟩
  · simp only [prefixCollisionEntries, sortedTreeListB, sortedTreeB, namesSortedB, nameOf,
      List.map]
    decide
  · simp only [prefixCollisionEntries, GetMp3FilePaths, walkCollectList, walkCollect]
    decide

set_option maxRecDepth 4000 in
/-- Claim C10: a first track with only 10 frames yields an initial
snapshot whose 40-byte `InitialBuffer` is shorter than the 200-byte unit
buffer read from the next track, so the rolling update's slice
expression is out of range and the producer panics. -/
theorem c10_unit_overflow_panic :
    (SetInitialBuffer c10ShortTrack).InitialBuffer.length = 40 ∧
    (SetInitialBuffer c10ShortTrack).UnitBuffer = [] ∧
    (readUnitAux c10NextSlots).1.length = 200 ∧
    SetUnitBuffer (SetInitialBuffer c10ShortTrack) c10NextSlots = UnitResult.panicked := by
  decide

end GoStream
